import Mathlib

/-!
Shallow embedding of the hapit smart contract
(`src/chaincode/hapit/go/hapit.go`).

Byte strings are modelled as `List Char` (the chaincode only ever handles
valid UTF-8 text, on which code-point order agrees with UTF-8 byte order).
The Fabric state store is modelled as an association list kept in key order
by `putState`, matching the store's last-write-wins put semantics and
key-ordered range scans.  Go's `encoding/json` marshalling of the two record
structs is embedded literally (field order, struct tags, string escaping
with HTML escaping as `json.Marshal` performs by default), and unmarshalling
goes through a small JSON parser mirroring the library's observable
behaviour on this struct: absent/malformed input leaves the target
unchanged, `null` sets a slice field to nil, object fields are matched by
their tag.
-/

abbrev Bytes := List Char

/-- Bytes of a string literal. -/
def lit (s : String) : Bytes := s.data

/-- Lexicographic order on byte strings, as the store compares keys. -/
def strLt : Bytes → Bytes → Bool
  | [], [] => false
  | [], _ :: _ => true
  | _ :: _, [] => false
  | a :: as, b :: bs =>
    if a.toNat < b.toNat then true
    else if b.toNat < a.toNat then false
    else strLt as bs

def strLe (a b : Bytes) : Bool := strLt a b || a == b

abbrev Store := List (Bytes × Bytes)

/-- Model of `GetState`: point lookup; `none` models a missing key (nil bytes). -/
def getState : Store → Bytes → Option Bytes
  | [], _ => none
  | (k', v) :: t, k => if k = k' then some v else getState t k

/-- Model of `PutState`: last-write-wins write, keeping the store in key order. -/
def putState : Store → Bytes → Bytes → Store
  | [], k, v => [(k, v)]
  | (k', v') :: t, k, v =>
    if k = k' then (k, v) :: t
    else if strLt k k' then (k, v) :: (k', v') :: t
    else (k', v') :: putState t k v

/-- Model of `GetStateByRange`: entries with `startKey ≤ key < endKey`, in store order. -/
def getStateByRange (st : Store) (startKey endKey : Bytes) : List (Bytes × Bytes) :=
  st.filter fun kv => strLe startKey kv.1 && strLt kv.1 endKey

/-- The `Habit` struct.  `attendees = none` models a Go nil slice
(marshalled as JSON `null`), `some l` a non-nil slice. -/
structure Habit where
  name : Bytes
  type : Bytes
  attendees : Option (List Bytes)
  owner : Bytes
deriving DecidableEq

/-- The `Person` struct. -/
structure Person where
  name : Bytes
  age : Int
deriving DecidableEq

/-- Go's zero value `Habit{}`: empty strings, nil slice. -/
def zeroHabit : Habit := ⟨[], [], none, []⟩

/-- Lower-case hex digit. -/
def hexDigit (n : Nat) : Char := if n < 10 then Char.ofNat (48 + n) else Char.ofNat (87 + n)

/-- The `encoding/json` string escaping (default encoder, HTML escaping on):
quote, backslash, `\n`/`\r`/`\t` get two-character escapes; `<`, `>`, `&`
and other control characters become `\u00xx`; U+2028/U+2029 become
six-character `\u20..` escapes; everything else is emitted verbatim. -/
def escapeChar (c : Char) : Bytes :=
  if c = '"' then ['\\', '"']
  else if c = '\\' then ['\\', '\\']
  else if c = '\n' then ['\\', 'n']
  else if c = '\r' then ['\\', 'r']
  else if c = '\t' then ['\\', 't']
  else if c = '<' ∨ c = '>' ∨ c = '&' then
    ['\\', 'u', '0', '0', hexDigit (c.toNat / 16), hexDigit (c.toNat % 16)]
  else if c.toNat < 32 then
    ['\\', 'u', '0', '0', hexDigit (c.toNat / 16), hexDigit (c.toNat % 16)]
  else if c = '\u2028' ∨ c = '\u2029' then
    ['\\', 'u', '2', '0', '2', hexDigit (c.toNat % 16)]
  else [c]

def escape : Bytes → Bytes
  | [] => []
  | c :: t => escapeChar c ++ escape t

/-- A JSON string literal: `"` + escaped content + `"`. -/
def quoteStr (s : Bytes) : Bytes := '"' :: (escape s ++ ['"'])

/-- Remaining elements of a marshalled string array: `,"x"` each. -/
def marshalMore : List Bytes → Bytes
  | [] => []
  | x :: t => ',' :: (quoteStr x ++ marshalMore t)

/-- Model of `json.Marshal` on a `[]string`: nil slice marshals as `null`. -/
def marshalAttendees : Option (List Bytes) → Bytes
  | none => lit "null"
  | some [] => lit "[]"
  | some (x :: t) => '[' :: (quoteStr x ++ (marshalMore t ++ [']']))

/-- Model of `json.Marshal` on a `Habit`: fields in declaration order under their
struct tags. -/
def marshalHabit (h : Habit) : Bytes :=
  lit "\x7b\"name\":" ++ quoteStr h.name ++ lit ",\"type\":" ++ quoteStr h.type
    ++ lit ",\"attendees\":" ++ marshalAttendees h.attendees
    ++ lit ",\"owner\":" ++ quoteStr h.owner ++ lit "\x7d"

/-- Model of `json.Marshal` on a `Person`. -/
def marshalPerson (p : Person) : Bytes :=
  lit "\x7b\"name\":" ++ quoteStr p.name ++ lit ",\"age\":" ++ (toString p.age).data ++ lit "\x7d"

example : marshalHabit ⟨lit "Running", lit "Health", some [lit "Ruby", lit "Kathy"], lit "Kathy"⟩
    = lit "\x7b\"name\":\"Running\",\"type\":\"Health\",\"attendees\":[\"Ruby\",\"Kathy\"],\"owner\":\"Kathy\"\x7d" := by
  rfl

example : marshalPerson ⟨lit "Kimi", 29⟩ = lit "\x7b\"name\":\"Kimi\",\"age\":29\x7d" := by rfl

example : marshalHabit zeroHabit
    = lit "\x7b\"name\":\"\",\"type\":\"\",\"attendees\":null,\"owner\":\"\"\x7d" := by rfl

/-- JSON values, as `encoding/json` sees a decoded document. -/
inductive Json where
  | null : Json
  | bool : Bool → Json
  | num : Int → Json
  | str : Bytes → Json
  | arr : List Json → Json
  | obj : List (Bytes × Json) → Json

/-- JSON whitespace. -/
def isWs (c : Char) : Bool := c = ' ' || c = '\t' || c = '\n' || c = '\r'

def skipWs : Bytes → Bytes
  | [] => []
  | c :: rest => if isWs c then skipWs rest else c :: rest

/-- Does the input start with this character? -/
def headIs (x : Char) : Bytes → Bool
  | [] => false
  | c :: _ => c = x

/-- Value of a hex digit character, if it is one. -/
def hexVal (c : Char) : Option Nat :=
  if '0' ≤ c ∧ c ≤ '9' then some (c.toNat - 48)
  else if 'a' ≤ c ∧ c ≤ 'f' then some (c.toNat - 87)
  else if 'A' ≤ c ∧ c ≤ 'F' then some (c.toNat - 55)
  else none

/-- Unescape a two-character escape `\e`. -/
def unescapeChar (e : Char) : Option Char :=
  if e = '"' then some '"'
  else if e = '\\' then some '\\'
  else if e = '/' then some '/'
  else if e = 'b' then some (Char.ofNat 8)
  else if e = 'f' then some (Char.ofNat 12)
  else if e = 'n' then some '\n'
  else if e = 'r' then some '\r'
  else if e = 't' then some '\t'
  else none

/-- Four hex digits, as in a `\uXXXX` escape. -/
def parseHex4 : Bytes → Option (Nat × Bytes)
  | h1 :: h2 :: h3 :: h4 :: rest =>
    match hexVal h1, hexVal h2, hexVal h3, hexVal h4 with
    | some a, some b, some c, some d => some ((((a * 16 + b) * 16 + c) * 16) + d, rest)
    | _, _, _, _ => none
  | _ => none

/-- One escape sequence (after the backslash). -/
def parseEsc : Bytes → Option (Char × Bytes)
  | [] => none
  | e :: rest =>
    if e = 'u' then (parseHex4 rest).map fun q => (Char.ofNat q.1, q.2)
    else (unescapeChar e).map fun u => (u, rest)

/-- Parse the body of a JSON string literal (after the opening quote),
returning the decoded content and the input after the closing quote.
The fuel only needs to exceed the number of decoded characters. -/
def parseStringBody : Nat → Bytes → Option (Bytes × Bytes)
  | 0, _ => none
  | _ + 1, [] => none
  | fuel + 1, c :: rest =>
    if c = '"' then some ([], rest)
    else if c = '\\' then
      (parseEsc rest).bind fun q =>
        (parseStringBody fuel q.2).map fun p => (q.1 :: p.1, p.2)
    else if c.toNat < 32 then none
    else (parseStringBody fuel rest).map fun p => (c :: p.1, p.2)

def isDigitChar (c : Char) : Bool := '0' ≤ c && c ≤ '9'

/-- Parse a run of decimal digits into a `Nat` (accumulator first). -/
def parseDigits : Bytes → Nat → Nat × Bytes
  | [], acc => (acc, [])
  | c :: rest, acc =>
    if isDigitChar c then parseDigits rest (acc * 10 + (c.toNat - 48))
    else (acc, c :: rest)

/-- A decimal natural number (at least one digit). -/
def parseNatNum : Bytes → Option (Nat × Bytes)
  | [] => none
  | c :: rest =>
    if isDigitChar c then some (parseDigits rest (c.toNat - 48)) else none

/-- Parse a JSON integer (the only number shape this contract produces). -/
def parseNumber (s : Bytes) : Option (Json × Bytes) :=
  if headIs '-' s then (parseNatNum s.tail).map fun p => (.num (-(p.1 : Int)), p.2)
  else (parseNatNum s).map fun p => (.num (p.1 : Int), p.2)

/-- The keyword tail expected after the first character of
`null` / `true` / `false`. -/
def expectTail : Bytes → Bytes → Option Bytes
  | [], s => some s
  | _ :: _, [] => none
  | c :: t, d :: s => if d = c then expectTail t s else none

mutual

/-- Parse one JSON value from input whose leading whitespace has been
skipped; `fuel` bounds the nesting and element count and is in practice at
least the input length. -/
def parseVal : Nat → Bytes → Option (Json × Bytes)
  | 0, _ => none
  | _ + 1, [] => none
  | fuel + 1, c :: rest =>
    if c = '"' then (parseStringBody (rest.length + 1) rest).map fun p => (.str p.1, p.2)
    else if c = '[' then
      if headIs ']' (skipWs rest) then some (.arr [], (skipWs rest).tail)
      else (parseElems fuel (skipWs rest)).map fun p => (.arr p.1, p.2)
    else if c = '\x7b' then
      if headIs '\x7d' (skipWs rest) then some (.obj [], (skipWs rest).tail)
      else (parseMembers fuel (skipWs rest)).map fun p => (.obj p.1, p.2)
    else if c = 'n' then (expectTail (lit "ull") rest).map fun r => (.null, r)
    else if c = 't' then (expectTail (lit "rue") rest).map fun r => (.bool true, r)
    else if c = 'f' then (expectTail (lit "alse") rest).map fun r => (.bool false, r)
    else parseNumber (c :: rest)

/-- Elements of a non-empty JSON array, up to and including `]`. -/
def parseElems : Nat → Bytes → Option (List Json × Bytes)
  | 0, _ => none
  | fuel + 1, s =>
    (parseVal fuel (skipWs s)).bind fun p =>
      if headIs ',' (skipWs p.2) then
        (parseElems fuel ((skipWs p.2).tail)).map fun q => (p.1 :: q.1, q.2)
      else if headIs ']' (skipWs p.2) then some ([p.1], (skipWs p.2).tail)
      else none

/-- Members of a non-empty JSON object, up to and including the closing
brace. -/
def parseMembers : Nat → Bytes → Option (List (Bytes × Json) × Bytes)
  | 0, _ => none
  | fuel + 1, s =>
    if headIs '"' (skipWs s) then
      (parseStringBody ((skipWs s).tail.length + 1) ((skipWs s).tail)).bind fun pk =>
        if headIs ':' (skipWs pk.2) then
          (parseVal fuel (skipWs ((skipWs pk.2).tail))).bind fun pv =>
            if headIs ',' (skipWs pv.2) then
              (parseMembers fuel ((skipWs pv.2).tail)).map fun q => ((pk.1, pv.1) :: q.1, q.2)
            else if headIs '\x7d' (skipWs pv.2) then some ([(pk.1, pv.1)], (skipWs pv.2).tail)
            else none
        else none
    else none

end

/-- Parse a whole JSON document (no trailing content but whitespace). -/
def parseJson (s : Bytes) : Option Json :=
  (parseVal (s.length + 1) (skipWs s)).bind fun p =>
    if skipWs p.2 = [] then some p.1 else none

/-- Decoding a JSON array element into a `string`: a type mismatch leaves
the element at its zero value, as `encoding/json` does. -/
def decodeStrElem : Json → Bytes
  | .str s => s
  | _ => []

/-- The `json.Unmarshal` field assignment for `Habit`: fields are matched by
struct tag; `null` into a string field has no effect, `null` into the slice
field sets it to nil; a mismatched type leaves the field unchanged. -/
def setHabitField (h : Habit) (key : Bytes) (v : Json) : Habit :=
  if key = lit "name" then
    match v with
    | .str s => { h with name := s }
    | _ => h
  else if key = lit "type" then
    match v with
    | .str s => { h with type := s }
    | _ => h
  else if key = lit "attendees" then
    match v with
    | .null => { h with attendees := none }
    | .arr l => { h with attendees := some (l.map decodeStrElem) }
    | _ => h
  else if key = lit "owner" then
    match v with
    | .str s => { h with owner := s }
    | _ => h
  else h

/-- Model of `json.Unmarshal` on a decoded document into a `Habit` value: a
non-object document leaves the target unchanged (the library reports an
error the contract ignores). -/
def unmarshalInto (h : Habit) : Json → Habit
  | .obj members => members.foldl (fun h kv => setHabitField h kv.1 kv.2) h
  | _ => h

/-- Model of `json.Unmarshal(bytes, &h)` as the contract uses it: malformed or empty
input leaves `h` unchanged (the error return is discarded). -/
def unmarshalHabit (bytes : Bytes) (h : Habit) : Habit :=
  match parseJson bytes with
  | some j => unmarshalInto h j
  | none => h

/-- A chaincode response: `shim.Success` carries a payload,
`shim.Error` a message. -/
inductive Response where
  | success : Bytes → Response
  | error : Bytes → Response
deriving DecidableEq

/-- Payload of a response (empty for errors). -/
def respPayload : Response → Bytes
  | .success p => p
  | .error _ => []

/-- The `queryHabit` handler: one argument expected; returns the raw stored bytes
(nil/empty when the key is absent) with no existence check. -/
def queryHabit (st : Store) (args : List Bytes) : Response × Store :=
  if args.length ≠ 1 then (.error (lit "Incorrect number of arguments. Expecting 1"), st)
  else (.success ((getState st (args.getD 0 [])).getD []), st)

def seedHabits : List Habit :=
  [⟨lit "Running", lit "Health", some [lit "Ruby", lit "Kathy"], lit "Kathy"⟩,
   ⟨lit "English", lit "Learning", some [lit "Kathy"], lit "Kathy"⟩,
   ⟨lit "Workout", lit "Health", some [lit "Kimi", lit "Rocky"], lit "Kimi"⟩,
   ⟨lit "bark", lit "Nature", some [lit "Ruby", lit "Rocky"], lit "Rocky"⟩,
   ⟨lit "Blockchain", lit "Learning", some [lit "Kimi", lit "Ruby", lit "Rocky"], lit "Kimi"⟩]

def seedPeople : List Person :=
  [⟨lit "Kimi", 29⟩, ⟨lit "Kathy", 28⟩, ⟨lit "Ruby", 5⟩, ⟨lit "Rocky", 3⟩]

/-- Seed key `"HABIT" + strconv.Itoa i`. -/
def habitKey (i : Nat) : Bytes := lit "HABIT" ++ (Nat.repr i).data

/-- Seed key `"PERSON" + strconv.Itoa j`. -/
def personKey (j : Nat) : Bytes := lit "PERSON" ++ (Nat.repr j).data

/-- The first loop of `initLedger`. -/
def putHabits : Store → Nat → List Habit → Store
  | st, _, [] => st
  | st, i, h :: t => putHabits (putState st (habitKey i) (marshalHabit h)) (i + 1) t

/-- The second loop of `initLedger`. -/
def putPeople : Store → Nat → List Person → Store
  | st, _, [] => st
  | st, j, p :: t => putPeople (putState st (personKey j) (marshalPerson p)) (j + 1) t

/-- The `initLedger` handler: writes the five seed habits and four seed people. -/
def initLedger (st : Store) : Response × Store :=
  (.success [], putPeople (putHabits st 0 seedHabits) 0 seedPeople)

/-- The `createHabit` handler: builds a habit with a one-element attendees slice and
overwrites whatever is at the key. -/
def createHabit (st : Store) (args : List Bytes) : Response × Store :=
  if args.length ≠ 5 then (.error (lit "Incorrect number of arguments. Expecting 5"), st)
  else
    let habit : Habit :=
      ⟨args.getD 1 [], args.getD 2 [], some [args.getD 3 []], args.getD 4 []⟩
    (.success [], putState st (args.getD 0 []) (marshalHabit habit))

/-- The body written for one range-scan result:
`{"Key":"<key>", "Record":<raw value>}`, with the key and value spliced in
verbatim, plus a leading comma for every result after the first. -/
def queryAllEntries : List (Bytes × Bytes) → Bool → Bytes
  | [], _ => []
  | (k, v) :: t, written =>
    (if written then [','] else [])
      ++ (lit "\x7b\"Key\":\"" ++ k ++ lit "\", \"Record\":" ++ v ++ ['\x7d'])
      ++ queryAllEntries t true

/-- The `queryAllHabits` handler: range scan over `["HABIT0","HABIT999")` buffered into
a hand-built JSON array text. -/
def queryAllHabits (st : Store) : Response × Store :=
  (.success ('[' :: (queryAllEntries (getStateByRange st (lit "HABIT0") (lit "HABIT999")) false ++ [']'])), st)

/-- The `changeHabitOwner` handler: read, unmarshal (errors discarded), set owner,
re-marshal, write back. -/
def changeHabitOwner (st : Store) (args : List Bytes) : Response × Store :=
  if args.length ≠ 2 then (.error (lit "Incorrect number of arguments. Expecting 2"), st)
  else
    let habit := unmarshalHabit ((getState st (args.getD 0 [])).getD []) zeroHabit
    let habit := { habit with owner := args.getD 1 [] }
    (.success [], putState st (args.getD 0 []) (marshalHabit habit))

/-- The `changeHabitAttendees` handler: read, unmarshal (errors discarded), append the
new attendee (Go `append` on a nil slice yields a one-element slice),
re-marshal, write back. -/
def changeHabitAttendees (st : Store) (args : List Bytes) : Response × Store :=
  if args.length ≠ 2 then (.error (lit "Incorrect number of arguments. Expecting 2"), st)
  else
    let habit := unmarshalHabit ((getState st (args.getD 0 [])).getD []) zeroHabit
    let habit := { habit with attendees := some (habit.attendees.getD [] ++ [args.getD 1 []]) }
    (.success [], putState st (args.getD 0 []) (marshalHabit habit))

/-- The `Invoke` dispatcher. -/
def invoke (st : Store) (function : Bytes) (args : List Bytes) : Response × Store :=
  if function = lit "queryHabit" then queryHabit st args
  else if function = lit "initLedger" then initLedger st
  else if function = lit "createHabit" then createHabit st args
  else if function = lit "queryAllHabits" then queryAllHabits st
  else if function = lit "changeHabitOwner" then changeHabitOwner st args
  else if function = lit "changeHabitAttendees" then changeHabitAttendees st args
  else (.error (lit "Invalid Smart Contract function name."), st)

set_option maxRecDepth 8192

/-! ### Store lemmas -/

lemma getState_putState (st : Store) (k k' v : Bytes) :
    getState (putState st k' v) k = if k = k' then some v else getState st k := by
  induction st with
  | nil => simp [putState, getState]
  | cons hd t ih =>
    obtain ⟨k2, v2⟩ := hd
    by_cases h1 : k' = k2
    · subst h1
      by_cases h3 : k = k' <;> simp [putState, getState, h3]
    · by_cases h2 : strLt k' k2 = true
      · simp [putState, getState, h1, h2]
      · by_cases h3 : k = k2
        · subst h3
          have hne : ¬ k = k' := fun he => h1 he.symm
          simp [putState, getState, h1, h2, hne]
        · simp [putState, getState, h1, h2, h3, ih]

/-! ### The string-escaping round trip -/

lemma hexVal_hexDigit (d : Nat) (h : d < 16) : hexVal (hexDigit d) = some d := by
  interval_cases d <;> decide

lemma parseStringBody_escapeChar (c : Char) (fuel : Nat) (t s r : Bytes)
    (ht : parseStringBody fuel t = some (s, r)) :
    parseStringBody (fuel + 1) (escapeChar c ++ t) = some (c :: s, r) := by
  by_cases h1 : c = '"'
  · subst h1
    simp +decide [escapeChar, parseStringBody, parseEsc, unescapeChar, ht]
  by_cases h2 : c = '\\'
  · subst h2
    simp +decide [escapeChar, parseStringBody, parseEsc, unescapeChar, ht]
  by_cases h3 : c = '\n'
  · subst h3
    simp +decide [escapeChar, parseStringBody, parseEsc, unescapeChar, ht]
  by_cases h4 : c = '\r'
  · subst h4
    simp +decide [escapeChar, parseStringBody, parseEsc, unescapeChar, ht]
  by_cases h5 : c = '\t'
  · subst h5
    simp +decide [escapeChar, parseStringBody, parseEsc, unescapeChar, ht]
  by_cases h6 : c = '<' ∨ c = '>' ∨ c = '&'
  · rcases h6 with h6 | h6 | h6 <;> subst h6 <;>
      simp +decide [escapeChar, parseStringBody, parseEsc, parseHex4, hexVal, ht]
  by_cases h7 : c.toNat < 32
  · have e0 : hexVal '0' = some 0 := by decide
    have e3 : hexVal (hexDigit (c.toNat / 16)) = some (c.toNat / 16) :=
      hexVal_hexDigit _ (by omega)
    have e4 : hexVal (hexDigit (c.toNat % 16)) = some (c.toNat % 16) :=
      hexVal_hexDigit _ (by omega)
    have hdm : c.toNat / 16 * 16 + c.toNat % 16 = c.toNat := by omega
    simp +decide [escapeChar, h1, h2, h3, h4, h5, h6, h7, parseStringBody, parseEsc, parseHex4,
      e0, e3, e4, ht, hdm, Char.ofNat_toNat]
  by_cases h8 : c = '\u2028' ∨ c = '\u2029'
  · rcases h8 with h8 | h8 <;> subst h8 <;>
      simp +decide [escapeChar, parseStringBody, parseEsc, parseHex4, hexVal, ht]
  · have hq : escapeChar c = [c] := by
      simp only [escapeChar, h1, h2, h3, h4, h5, h6, h7, h8, if_false]
    rw [hq]
    simp [parseStringBody, h1, h2, h7, ht]

lemma parseStringBody_escape (s : Bytes) : ∀ (fuel : Nat) (rest : Bytes),
    s.length + 1 ≤ fuel →
    parseStringBody fuel (escape s ++ ('"' :: rest)) = some (s, rest) := by
  induction s with
  | nil =>
    intro fuel rest hf
    obtain ⟨f, rfl⟩ : ∃ f, fuel = f + 1 := ⟨fuel - 1, by omega⟩
    simp +decide [escape, parseStringBody]
  | cons c s ih =>
    intro fuel rest hf
    obtain ⟨f, rfl⟩ : ∃ f, fuel = f + 1 := ⟨fuel - 1, by omega⟩
    have hrec := ih f rest (by simpa using Nat.lt_succ_iff.mp (by simpa [List.length] using hf))
    have := parseStringBody_escapeChar c f (escape s ++ ('"' :: rest)) s rest hrec
    simpa [escape, List.append_assoc] using this

lemma escapeChar_length_pos (c : Char) : 1 ≤ (escapeChar c).length := by
  unfold escapeChar
  split_ifs <;> simp

lemma length_le_escape (s : Bytes) : s.length ≤ (escape s).length := by
  induction s with
  | nil => simp [escape]
  | cons c t ih =>
    simp only [escape, List.length_append, List.length_cons]
    have := escapeChar_length_pos c
    omega

@[simp] lemma skipWs_cons (c : Char) (t : Bytes) :
    skipWs (c :: t) = if isWs c then skipWs t else c :: t := by
  rw [skipWs]

/-- How `parseVal` consumes a marshalled string literal. -/
lemma parseVal_quoteStr (x : Bytes) (fuel : Nat) (tail : Bytes) (hf : 1 ≤ fuel) :
    parseVal fuel (quoteStr x ++ tail) = some (.str x, tail) := by
  obtain ⟨f, rfl⟩ : ∃ f, fuel = f + 1 := ⟨fuel - 1, by omega⟩
  have hsb : parseStringBody ((escape x).length + (tail.length + 1) + 1)
      (escape x ++ ('"' :: tail)) = some (x, tail) := by
    apply parseStringBody_escape
    have := length_le_escape x
    omega
  simp +decide [quoteStr, parseVal, List.append_assoc, hsb]

/-- The JSON document shape of a marshalled attendees slice. -/
def attendeesJson : Option (List Bytes) → Json
  | none => .null
  | some l => .arr (l.map .str)

/-- The JSON document shape of a marshalled `Habit`. -/
def habitJsonAst (h : Habit) : Json :=
  .obj [(lit "name", .str h.name), (lit "type", .str h.type),
        (lit "attendees", attendeesJson h.attendees), (lit "owner", .str h.owner)]

lemma parseElems_strings (t : List Bytes) : ∀ (x : Bytes) (fuel : Nat) (rest : Bytes),
    t.length + 2 ≤ fuel →
    parseElems fuel (quoteStr x ++ (marshalMore t ++ (']' :: rest)))
      = some (Json.str x :: t.map Json.str, rest) := by
  induction t with
  | nil =>
    intro x fuel rest hf
    obtain ⟨f, rfl⟩ : ∃ f, fuel = f + 1 := ⟨fuel - 1, by omega⟩
    have h1 : parseVal f ('"' :: (escape x ++ '"' :: ']' :: rest)) = some (.str x, ']' :: rest) := by
      have := parseVal_quoteStr x f (']' :: rest) (by omega)
      simpa [quoteStr, List.append_assoc] using this
    simp +decide [parseElems, marshalMore, quoteStr, headIs, h1, List.append_assoc]
  | cons y t ih =>
    intro x fuel rest hf
    obtain ⟨f, rfl⟩ : ∃ f, fuel = f + 1 := ⟨fuel - 1, by omega⟩
    have h1 := parseVal_quoteStr x f (marshalMore (y :: t) ++ (']' :: rest)) (by omega)
    have h2 := ih y f rest (by simp only [List.length_cons] at hf; omega)
    simp only [quoteStr, marshalMore, List.append_assoc, List.cons_append,
      List.singleton_append, List.nil_append] at h1 h2 ⊢
    simp +decide [parseElems, headIs, h1, h2]

lemma parseVal_attendees (att : Option (List Bytes)) (fuel : Nat) (rest : Bytes)
    (hf : (att.getD []).length + 3 ≤ fuel) :
    parseVal fuel (marshalAttendees att ++ rest) = some (attendeesJson att, rest) := by
  obtain ⟨f, rfl⟩ : ∃ f, fuel = f + 1 := ⟨fuel - 1, by omega⟩
  match att with
  | none =>
    have hn : lit "null" = ['n', 'u', 'l', 'l'] := by decide
    have hu : lit "ull" = ['u', 'l', 'l'] := by decide
    simp +decide [marshalAttendees, attendeesJson, parseVal, expectTail, hn, hu]
  | some [] =>
    have hb : lit "[]" = ['[', ']'] := by decide
    simp +decide [marshalAttendees, attendeesJson, parseVal, headIs, hb]
  | some (x :: t) =>
    have h1 := parseElems_strings t x f rest
      (by simp only [Option.getD_some, List.length_cons] at hf; omega)
    simp only [marshalAttendees, quoteStr, marshalMore, List.append_assoc, List.cons_append,
      List.singleton_append, List.nil_append] at h1 ⊢
    simp +decide [parseVal, attendeesJson, headIs, h1]

/-- Lemma: `skipWs` does not consume the start of a marshalled attendees slice. -/
lemma skipWs_marshalAttendees (att : Option (List Bytes)) (x : Bytes) :
    skipWs (marshalAttendees att ++ x) = marshalAttendees att ++ x := by
  match att with
  | none => simp +decide [marshalAttendees, lit]
  | some [] => simp +decide [marshalAttendees, lit]
  | some (y :: t) => simp +decide [marshalAttendees]

/-- One string-valued member followed by a comma and further members. -/
lemma parseMembers_more (f : Nat) (kcs x mrest out : Bytes) (ms : List (Bytes × Json))
    (hk : escape kcs = kcs) (hf : 1 ≤ f)
    (hm : parseMembers f mrest = some (ms, out)) :
    parseMembers (f + 1) ('"' :: (kcs ++ '"' :: ':' :: ('"' :: (escape x ++ '"' :: ',' :: mrest))))
      = some ((kcs, Json.str x) :: ms, out) := by
  have hsb : parseStringBody ((kcs ++ '"' :: ':' :: ('"' :: (escape x ++ '"' :: ',' :: mrest))).length + 1)
      (kcs ++ '"' :: ':' :: ('"' :: (escape x ++ '"' :: ',' :: mrest)))
      = some (kcs, ':' :: ('"' :: (escape x ++ '"' :: ',' :: mrest))) := by
    conv_lhs => rw [← hk]
    apply parseStringBody_escape
    have hkl : (escape kcs).length = kcs.length := by rw [hk]
    simp only [List.length_append, List.length_cons]
    omega
  have hv := parseVal_quoteStr x f (',' :: mrest) hf
  simp only [quoteStr, List.append_assoc, List.cons_append, List.singleton_append,
    List.nil_append] at hv
  simp only [List.length_append, List.length_cons] at hsb
  simp +decide [parseMembers, headIs, hsb, hv, hm]

/-- The final string-valued member, closed by the object brace. -/
lemma parseMembers_last (f : Nat) (kcs x rest : Bytes)
    (hk : escape kcs = kcs) (hf : 1 ≤ f) :
    parseMembers (f + 1) ('"' :: (kcs ++ '"' :: ':' :: ('"' :: (escape x ++ '"' :: '\x7d' :: rest))))
      = some ([(kcs, Json.str x)], rest) := by
  have hsb : parseStringBody ((kcs ++ '"' :: ':' :: ('"' :: (escape x ++ '"' :: '\x7d' :: rest))).length + 1)
      (kcs ++ '"' :: ':' :: ('"' :: (escape x ++ '"' :: '\x7d' :: rest)))
      = some (kcs, ':' :: ('"' :: (escape x ++ '"' :: '\x7d' :: rest))) := by
    conv_lhs => rw [← hk]
    apply parseStringBody_escape
    have hkl : (escape kcs).length = kcs.length := by rw [hk]
    simp only [List.length_append, List.length_cons]
    omega
  have hv := parseVal_quoteStr x f ('\x7d' :: rest) hf
  simp only [quoteStr, List.append_assoc, List.cons_append, List.singleton_append,
    List.nil_append] at hv
  simp only [List.length_append, List.length_cons] at hsb
  simp +decide [parseMembers, headIs, hsb, hv]

/-- The attendees member followed by a comma and further members. -/
lemma parseMembers_att (f : Nat) (kcs mrest out : Bytes) (att : Option (List Bytes))
    (ms : List (Bytes × Json))
    (hk : escape kcs = kcs) (hf : (att.getD []).length + 3 ≤ f)
    (hm : parseMembers f mrest = some (ms, out)) :
    parseMembers (f + 1) ('"' :: (kcs ++ '"' :: ':' :: (marshalAttendees att ++ ',' :: mrest)))
      = some ((kcs, attendeesJson att) :: ms, out) := by
  have hsb : parseStringBody ((kcs ++ '"' :: ':' :: (marshalAttendees att ++ ',' :: mrest)).length + 1)
      (kcs ++ '"' :: ':' :: (marshalAttendees att ++ ',' :: mrest))
      = some (kcs, ':' :: (marshalAttendees att ++ ',' :: mrest)) := by
    conv_lhs => rw [← hk]
    apply parseStringBody_escape
    have hkl : (escape kcs).length = kcs.length := by rw [hk]
    simp only [List.length_append, List.length_cons]
    omega
  have hv := parseVal_attendees att f (',' :: mrest) hf
  simp only [List.length_append, List.length_cons] at hsb
  simp +decide [parseMembers, headIs, hsb, skipWs_marshalAttendees, hv, hm]

lemma parseVal_marshalHabit (h : Habit) (fuel : Nat) (rest : Bytes)
    (hf : (h.attendees.getD []).length + 7 ≤ fuel) :
    parseVal fuel (marshalHabit h ++ rest) = some (habitJsonAst h, rest) := by
  obtain ⟨f, rfl⟩ : ∃ f, fuel = f + 1 := ⟨fuel - 1, by omega⟩
  obtain ⟨g, rfl⟩ : ∃ g, f = g + 4 := ⟨f - 4, by omega⟩
  have hOwner := parseMembers_last g (lit "owner") h.owner rest (by decide) (by omega)
  have hAtt := parseMembers_att (g + 1) (lit "attendees")
    ('"' :: (lit "owner" ++ '"' :: ':' :: ('"' :: (escape h.owner ++ '"' :: '\x7d' :: rest))))
    rest h.attendees [(lit "owner", Json.str h.owner)] (by decide) (by omega) hOwner
  have hType := parseMembers_more (g + 2) (lit "type") h.type
    ('"' :: (lit "attendees" ++ '"' :: ':' :: (marshalAttendees h.attendees ++ ',' ::
      ('"' :: (lit "owner" ++ '"' :: ':' :: ('"' :: (escape h.owner ++ '"' :: '\x7d' :: rest)))))))
    rest _ (by decide) (by omega) hAtt
  have hName := parseMembers_more (g + 3) (lit "name") h.name
    ('"' :: (lit "type" ++ '"' :: ':' :: ('"' :: (escape h.type ++ '"' :: ',' ::
      ('"' :: (lit "attendees" ++ '"' :: ':' :: (marshalAttendees h.attendees ++ ',' ::
        ('"' :: (lit "owner" ++ '"' :: ':' :: ('"' :: (escape h.owner ++ '"' :: '\x7d' :: rest)))))))))))
    rest _ (by decide) (by omega) hType
  have hk1 : lit "\x7b\"name\":" = ['\x7b', '"', 'n', 'a', 'm', 'e', '"', ':'] := by decide
  have hk2 : lit ",\"type\":" = [',', '"', 't', 'y', 'p', 'e', '"', ':'] := by decide
  have hk3 : lit ",\"attendees\":" = [',', '"', 'a', 't', 't', 'e', 'n', 'd', 'e', 'e', 's', '"', ':'] := by decide
  have hk4 : lit ",\"owner\":" = [',', '"', 'o', 'w', 'n', 'e', 'r', '"', ':'] := by decide
  have hk5 : lit "\x7d" = ['\x7d'] := by decide
  have hn : lit "name" = ['n', 'a', 'm', 'e'] := by decide
  have ht : lit "type" = ['t', 'y', 'p', 'e'] := by decide
  have ha : lit "attendees" = ['a', 't', 't', 'e', 'n', 'd', 'e', 'e', 's'] := by decide
  have ho : lit "owner" = ['o', 'w', 'n', 'e', 'r'] := by decide
  simp only [hn, ht, ha, ho, List.append_assoc, List.cons_append, List.nil_append] at hName
  simp only [marshalHabit, habitJsonAst, quoteStr, hk1, hk2, hk3, hk4, hk5, hn, ht, ha, ho,
    List.append_assoc, List.cons_append, List.singleton_append, List.nil_append]
  simp +decide [parseVal, headIs, hName]

lemma marshalMore_length (t : List Bytes) : t.length ≤ (marshalMore t).length := by
  induction t with
  | nil => simp [marshalMore]
  | cons y t ih =>
    simp only [marshalMore, quoteStr, List.length_cons, List.length_append]
    omega

lemma marshalAttendees_length (att : Option (List Bytes)) :
    (att.getD []).length ≤ (marshalAttendees att).length := by
  match att with
  | none => simp +decide [marshalAttendees]
  | some [] => simp [marshalAttendees]
  | some (x :: t) =>
    have := marshalMore_length t
    simp only [marshalAttendees, quoteStr, Option.getD_some, List.length_cons,
      List.length_append]
    omega

lemma skipWs_marshalHabit (h : Habit) : skipWs (marshalHabit h) = marshalHabit h := by
  have hk1 : lit "\x7b\"name\":" = ['\x7b', '"', 'n', 'a', 'm', 'e', '"', ':'] := by decide
  simp +decide [marshalHabit, hk1, List.cons_append]

lemma parseJson_marshalHabit (h : Habit) :
    parseJson (marshalHabit h) = some (habitJsonAst h) := by
  have l1 : (lit "\x7b\"name\":").length = 8 := by decide
  have l2 : (lit ",\"type\":").length = 8 := by decide
  have l3 : (lit ",\"attendees\":").length = 13 := by decide
  have l4 : (lit ",\"owner\":").length = 9 := by decide
  have l5 : (lit "\x7d").length = 1 := by decide
  have hma := marshalAttendees_length h.attendees
  have hlen : (h.attendees.getD []).length + 7 ≤ (marshalHabit h).length + 1 := by
    simp only [marshalHabit, quoteStr, List.length_append, List.length_cons, l1, l2, l3, l4, l5]
    omega
  have hp := parseVal_marshalHabit h ((marshalHabit h).length + 1) [] hlen
  rw [List.append_nil] at hp
  simp only [parseJson]
  rw [skipWs_marshalHabit, hp]
  simp [skipWs]

lemma unmarshalInto_habitJsonAst (h0 h : Habit) :
    unmarshalInto h0 (habitJsonAst h) = h := by
  obtain ⟨n, t, att, o⟩ := h
  cases att with
  | none => simp +decide [habitJsonAst, unmarshalInto, setHabitField, attendeesJson]
  | some l =>
    simp +decide [habitJsonAst, unmarshalInto, setHabitField, attendeesJson,
      List.map_map, Function.comp, decodeStrElem]
    exact List.map_id l

/-- The `encoding/json` round trip on `Habit`, for any initial target. -/
lemma unmarshalHabit_marshalHabit (h h0 : Habit) :
    unmarshalHabit (marshalHabit h) h0 = h := by
  simp [unmarshalHabit, parseJson_marshalHabit, unmarshalInto_habitJsonAst]

lemma createHabit_eq (st : Store) (k n t a o : Bytes) :
    createHabit st [k, n, t, a, o]
      = (.success [], putState st k (marshalHabit ⟨n, t, some [a], o⟩)) := by
  simp [createHabit]

lemma changeHabitOwner_step (st : Store) (k x : Bytes) (h : Habit)
    (hk : getState st k = some (marshalHabit h)) :
    changeHabitOwner st [k, x]
      = (.success [], putState st k (marshalHabit ⟨h.name, h.type, h.attendees, x⟩)) := by
  simp [changeHabitOwner, hk, unmarshalHabit_marshalHabit]

lemma changeHabitAttendees_step (st : Store) (k y : Bytes) (h : Habit)
    (hk : getState st k = some (marshalHabit h)) :
    changeHabitAttendees st [k, y]
      = (.success [], putState st k
          (marshalHabit ⟨h.name, h.type, some (h.attendees.getD [] ++ [y]), h.owner⟩)) := by
  simp [changeHabitAttendees, hk, unmarshalHabit_marshalHabit]

/-- C1: for every key and argument strings, `createHabit` followed by
`queryHabit` on the same key returns a success payload that JSON-decodes to
a `Habit` whose name, type and owner equal the inputs and whose attendees
are the single-element sequence holding the fourth argument. -/
theorem c1_create_then_query (st : Store) (k name ty fa owner : Bytes) :
    ∃ p, (queryHabit (createHabit st [k, name, ty, fa, owner]).2 [k]).1 = .success p
      ∧ unmarshalHabit p zeroHabit = ⟨name, ty, some [fa], owner⟩ := by
  refine ⟨marshalHabit ⟨name, ty, some [fa], owner⟩, ?_, unmarshalHabit_marshalHabit _ _⟩
  simp [createHabit_eq, queryHabit, getState_putState]

/-- C3: when a key holds a JSON-encoded habit, `changeHabitOwner` followed
by `queryHabit` yields a record whose owner is the new owner and whose
name, type and attendees are unchanged. -/
theorem c3_owner_frame (st : Store) (k x : Bytes) (h : Habit)
    (hk : getState st k = some (marshalHabit h)) :
    ∃ p, (queryHabit (changeHabitOwner st [k, x]).2 [k]).1 = .success p
      ∧ unmarshalHabit p zeroHabit = ⟨h.name, h.type, h.attendees, x⟩ := by
  refine ⟨marshalHabit ⟨h.name, h.type, h.attendees, x⟩, ?_, unmarshalHabit_marshalHabit _ _⟩
  rw [changeHabitOwner_step st k x h hk]
  simp [queryHabit, getState_putState]

theorem c3_owner_frame_witness :
    ∃ p, (queryHabit (changeHabitOwner
        [(lit "K", marshalHabit ⟨lit "N", lit "T", some [lit "A"], lit "O"⟩)]
        [lit "K", lit "X"]).2 [lit "K"]).1 = .success p
      ∧ unmarshalHabit p zeroHabit = ⟨lit "N", lit "T", some [lit "A"], lit "X"⟩ :=
  c3_owner_frame _ (lit "K") (lit "X") ⟨lit "N", lit "T", some [lit "A"], lit "O"⟩ (by decide)

/-- C2: `changeHabitAttendees` appends the new attendee to the end of the
stored attendees, preserving the prior elements and order; a second call
appends again. -/
theorem c2_attendees_append (st : Store) (k y z : Bytes) (h : Habit) (A : List Bytes)
    (hk : getState st k = some (marshalHabit h)) (hA : h.attendees = some A) :
    getState (changeHabitAttendees st [k, y]).2 k
        = some (marshalHabit ⟨h.name, h.type, some (A ++ [y]), h.owner⟩)
    ∧ getState (changeHabitAttendees (changeHabitAttendees st [k, y]).2 [k, z]).2 k
        = some (marshalHabit ⟨h.name, h.type, some (A ++ [y, z]), h.owner⟩) := by
  have h1 := changeHabitAttendees_step st k y h hk
  have hg1 : getState (changeHabitAttendees st [k, y]).2 k
      = some (marshalHabit ⟨h.name, h.type, some (A ++ [y]), h.owner⟩) := by
    rw [h1]
    simp [getState_putState, hA]
  refine ⟨hg1, ?_⟩
  have h2 := changeHabitAttendees_step (changeHabitAttendees st [k, y]).2 k z
    ⟨h.name, h.type, some (A ++ [y]), h.owner⟩ hg1
  rw [h2]
  simp [getState_putState]

theorem c2_attendees_append_witness :
    getState (changeHabitAttendees
        [(lit "K", marshalHabit ⟨lit "N", lit "T", some [lit "A"], lit "O"⟩)]
        [lit "K", lit "Y"]).2 (lit "K")
      = some (marshalHabit ⟨lit "N", lit "T", some [lit "A", lit "Y"], lit "O"⟩)
    ∧ getState (changeHabitAttendees (changeHabitAttendees
        [(lit "K", marshalHabit ⟨lit "N", lit "T", some [lit "A"], lit "O"⟩)]
        [lit "K", lit "Y"]).2 [lit "K", lit "Z"]).2 (lit "K")
      = some (marshalHabit ⟨lit "N", lit "T", some [lit "A", lit "Y", lit "Z"], lit "O"⟩) :=
  c2_attendees_append _ (lit "K") (lit "Y") (lit "Z")
    ⟨lit "N", lit "T", some [lit "A"], lit "O"⟩ [lit "A"] (by decide) rfl

/-- C9: `queryHabit` with one argument always succeeds with the raw stored
bytes, empty when the key is absent, and leaves the store unchanged. -/
theorem c9_queryHabit_raw (st : Store) (k : Bytes) :
    queryHabit st [k] = (.success ((getState st k).getD []), st)
    ∧ (getState st k = none → queryHabit st [k] = (.success [], st)) := by
  constructor
  · simp [queryHabit]
  · intro h
    simp [queryHabit, h]

theorem c9_queryHabit_raw_witness :
    queryHabit [] [lit "K"] = (.success [], []) :=
  (c9_queryHabit_raw [] (lit "K")).2 rfl

/-- C6: a wrong argument count on any mutating operation yields an error
whose message contains "Incorrect number of arguments", with no store
write. -/
theorem c6_arg_count (st : Store) (args : List Bytes) :
    (args.length ≠ 5 → ∃ m, createHabit st args = (.error m, st)
        ∧ List.IsInfix (lit "Incorrect number of arguments") m)
    ∧ (args.length ≠ 2 → ∃ m, changeHabitOwner st args = (.error m, st)
        ∧ List.IsInfix (lit "Incorrect number of arguments") m)
    ∧ (args.length ≠ 2 → ∃ m, changeHabitAttendees st args = (.error m, st)
        ∧ List.IsInfix (lit "Incorrect number of arguments") m) := by
  refine ⟨fun h5 => ⟨lit "Incorrect number of arguments. Expecting 5", ?_, ?_⟩,
    fun h2 => ⟨lit "Incorrect number of arguments. Expecting 2", ?_, ?_⟩,
    fun h2 => ⟨lit "Incorrect number of arguments. Expecting 2", ?_, ?_⟩⟩
  · simp [createHabit, h5]
  · decide
  · simp [changeHabitOwner, h2]
  · decide
  · simp [changeHabitAttendees, h2]
  · decide

theorem c6_arg_count_witness :
    (∃ m, createHabit [] [] = (.error m, [])
        ∧ List.IsInfix (lit "Incorrect number of arguments") m)
    ∧ (∃ m, changeHabitOwner [] [] = (.error m, [])
        ∧ List.IsInfix (lit "Incorrect number of arguments") m)
    ∧ (∃ m, changeHabitAttendees [] [] = (.error m, [])
        ∧ List.IsInfix (lit "Incorrect number of arguments") m) :=
  ⟨(c6_arg_count [] []).1 (by decide), (c6_arg_count [] []).2.1 (by decide),
   (c6_arg_count [] []).2.2 (by decide)⟩

/-- The nine fixed entries `initLedger` writes: the JSON encodings of the
seed habits under `HABIT0..HABIT4` and seed people under `PERSON0..PERSON3`. -/
def seedEntries : List (Bytes × Bytes) :=
  (List.range 5).map (fun i => (habitKey i, marshalHabit (seedHabits.getD i zeroHabit)))
    ++ (List.range 4).map (fun j => (personKey j, marshalPerson (seedPeople.getD j ⟨[], 0⟩)))

/-- C4: `initLedger` is idempotent — after one or two invocations, every
seed key holds exactly its fixed seed encoding, regardless of the initial
store. -/
theorem c4_initLedger_idempotent (st : Store) (k v : Bytes) (hkv : (k, v) ∈ seedEntries) :
    getState (initLedger st).2 k = some v
    ∧ getState (initLedger (initLedger st).2).2 k = some v := by
  have hcrunch : ∀ st' : Store, ∀ (k' v' : Bytes), (k', v') ∈ seedEntries →
      getState (initLedger st').2 k' = some v' := by
    intro st' k' v' h
    simp only [seedEntries, List.mem_append, List.mem_map, List.mem_range] at h
    rcases h with ⟨i, hi, he⟩ | ⟨j, hj, he⟩
    · obtain ⟨rfl, rfl⟩ := Prod.mk.injEq .. ▸ he
      interval_cases i <;>
        simp +decide [initLedger, putHabits, putPeople, seedHabits, seedPeople,
          habitKey, personKey, getState_putState]
    · obtain ⟨rfl, rfl⟩ := Prod.mk.injEq .. ▸ he
      interval_cases j <;>
        simp +decide [initLedger, putHabits, putPeople, seedHabits, seedPeople,
          habitKey, personKey, getState_putState]
  exact ⟨hcrunch st k v hkv, hcrunch (initLedger st).2 k v hkv⟩

theorem c4_initLedger_idempotent_witness :
    getState (initLedger [(lit "HABIT0", lit "junk")]).2 (lit "HABIT0")
        = some (marshalHabit ⟨lit "Running", lit "Health", some [lit "Ruby", lit "Kathy"], lit "Kathy"⟩)
    ∧ getState (initLedger (initLedger [(lit "HABIT0", lit "junk")]).2).2 (lit "HABIT0")
        = some (marshalHabit ⟨lit "Running", lit "Health", some [lit "Ruby", lit "Kathy"], lit "Kathy"⟩) :=
  c4_initLedger_idempotent [(lit "HABIT0", lit "junk")] (lit "HABIT0") _ (by decide)

/-- C5: after `initLedger` on an empty store, `queryAllHabits` returns a
success payload that parses as a JSON array of exactly five objects, one
per key `HABIT0..HABIT4` in store order, each carrying a `Key` field equal
to that key and a `Record` field deep-equal to the corresponding seed
habit; the person records are absent. -/
theorem c5_queryAllHabits_seed :
    (queryAllHabits (initLedger []).2).1
        = .success (respPayload (queryAllHabits (initLedger []).2).1)
    ∧ parseJson (respPayload (queryAllHabits (initLedger []).2).1)
        = some (.arr [
            .obj [(lit "Key", .str (lit "HABIT0")),
                  (lit "Record", habitJsonAst (seedHabits.getD 0 zeroHabit))],
            .obj [(lit "Key", .str (lit "HABIT1")),
                  (lit "Record", habitJsonAst (seedHabits.getD 1 zeroHabit))],
            .obj [(lit "Key", .str (lit "HABIT2")),
                  (lit "Record", habitJsonAst (seedHabits.getD 2 zeroHabit))],
            .obj [(lit "Key", .str (lit "HABIT3")),
                  (lit "Record", habitJsonAst (seedHabits.getD 3 zeroHabit))],
            .obj [(lit "Key", .str (lit "HABIT4")),
                  (lit "Record", habitJsonAst (seedHabits.getD 4 zeroHabit))]]) :=
  ⟨rfl, by rfl⟩

/-- C10: there is a sequence of public invocations — creating a habit under
a key that contains a double quote, then `queryAllHabits` — after which
`queryAllHabits` succeeds but its payload is not well-formed JSON. -/
theorem c10_malformed_query_all :
    (invoke (invoke [] (lit "createHabit")
        [lit "HABIT1\"x", lit "n", lit "t", lit "a", lit "o"]).2
        (lit "queryAllHabits") []).1
      = .success (respPayload (invoke (invoke [] (lit "createHabit")
          [lit "HABIT1\"x", lit "n", lit "t", lit "a", lit "o"]).2
          (lit "queryAllHabits") []).1)
    ∧ parseJson (respPayload (invoke (invoke [] (lit "createHabit")
          [lit "HABIT1\"x", lit "n", lit "t", lit "a", lit "o"]).2
          (lit "queryAllHabits") []).1) = none :=
  ⟨rfl, by rfl⟩

/-- C7 counterexample: `createHabit` performs no validation, so invoking it
with an empty fifth (owner) argument stores a habit whose owner decodes to
the empty string — refuting "non-empty owner for any 5 arguments". -/
theorem c7_empty_owner_counterexample :
    getState (createHabit [] [lit "K", lit "n", lit "t", lit "a", []]).2 (lit "K")
      = some (marshalHabit ⟨lit "n", lit "t", some [lit "a"], []⟩)
    ∧ (unmarshalHabit (marshalHabit ⟨lit "n", lit "t", some [lit "a"], []⟩) zeroHabit).owner
      = [] :=
  ⟨by decide, by rfl⟩

/-- C7 (amended): after `createHabit` whose owner argument is non-empty, or
after `initLedger`, every stored habit record decodes with a non-empty
owner. -/
theorem c7_owner_nonempty (st : Store) (k n t a o : Bytes) (ho : o ≠ []) :
    (unmarshalHabit ((getState (createHabit st [k, n, t, a, o]).2 k).getD []) zeroHabit).owner
        ≠ []
    ∧ (∀ i, i < 5 →
        (unmarshalHabit ((getState (initLedger st).2 (habitKey i)).getD []) zeroHabit).owner
          ≠ []) := by
  constructor
  · rw [createHabit_eq]
    simp [getState_putState, unmarshalHabit_marshalHabit, ho]
  · intro i hi
    interval_cases i <;>
      simp +decide [initLedger, putHabits, putPeople, seedHabits, seedPeople, habitKey,
        personKey, getState_putState, unmarshalHabit_marshalHabit]

theorem c7_owner_nonempty_witness :
    ((lit "O" : Bytes) ≠ []) ∧
    ((unmarshalHabit ((getState (createHabit [] [lit "K", lit "n", lit "t", lit "a", lit "O"]).2
          (lit "K")).getD []) zeroHabit).owner ≠ []
      ∧ (∀ i, i < 5 →
          (unmarshalHabit ((getState (initLedger []).2 (habitKey i)).getD []) zeroHabit).owner
            ≠ [])) :=
  ⟨by decide, c7_owner_nonempty [] (lit "K") (lit "n") (lit "t") (lit "a") (lit "O") (by decide)⟩

/-- C8 counterexample: `changeHabitOwner` applied to a key absent from the
store writes a record whose `attendees` field is JSON `null` — refuting
"attendees is never null for records written by any operation". -/
theorem c8_null_attendees_counterexample :
    getState (changeHabitOwner [] [lit "K", lit "X"]).2 (lit "K")
      = some (marshalHabit ⟨[], [], none, lit "X"⟩)
    ∧ parseJson (marshalHabit ⟨[], [], none, lit "X"⟩)
      = some (.obj [(lit "name", .str []), (lit "type", .str []),
          (lit "attendees", .null), (lit "owner", .str (lit "X"))]) :=
  ⟨by decide, by rfl⟩

/-- C8 (amended): records written by `createHabit`, `changeHabitAttendees`
(even at a missing or malformed key) and `initLedger` always decode with a
non-null attendees sequence, and `changeHabitOwner` preserves a non-null
attendees sequence when the key holds a well-formed habit; only
`changeHabitOwner` on a missing or malformed key writes `attendees: null`. -/
theorem c8_attendees_not_null (st : Store) (k2 k n t a o y x : Bytes) (h : Habit)
    (A : List Bytes)
    (hk : getState st k = some (marshalHabit h)) (hA : h.attendees = some A) :
    (∃ l, (unmarshalHabit ((getState (createHabit st [k2, n, t, a, o]).2 k2).getD [])
        zeroHabit).attendees = some l)
    ∧ (∃ l, (unmarshalHabit ((getState (changeHabitAttendees st [k2, y]).2 k2).getD [])
        zeroHabit).attendees = some l)
    ∧ (∀ i, i < 5 →
        ∃ l, (unmarshalHabit ((getState (initLedger st).2 (habitKey i)).getD [])
          zeroHabit).attendees = some l)
    ∧ (unmarshalHabit ((getState (changeHabitOwner st [k, x]).2 k).getD [])
        zeroHabit).attendees = some A := by
  refine ⟨?_, ?_, ?_, ?_⟩
  · rw [createHabit_eq]
    simp [getState_putState, unmarshalHabit_marshalHabit]
  · refine ⟨(unmarshalHabit ((getState st k2).getD []) zeroHabit).attendees.getD [] ++ [y], ?_⟩
    simp [changeHabitAttendees, getState_putState, unmarshalHabit_marshalHabit]
  · intro i hi
    interval_cases i <;>
      simp +decide [initLedger, putHabits, putPeople, seedHabits, seedPeople, habitKey,
        personKey, getState_putState, unmarshalHabit_marshalHabit]
  · rw [changeHabitOwner_step st k x h hk]
    simp [getState_putState, unmarshalHabit_marshalHabit, hA]

theorem c8_attendees_not_null_witness :
    (∃ l, (unmarshalHabit ((getState (createHabit
        [(lit "K", marshalHabit ⟨lit "N", lit "T", some [lit "A"], lit "O"⟩)]
        [lit "K2", lit "n", lit "t", lit "a", lit "o"]).2 (lit "K2")).getD [])
        zeroHabit).attendees = some l)
    ∧ (∃ l, (unmarshalHabit ((getState (changeHabitAttendees
        [(lit "K", marshalHabit ⟨lit "N", lit "T", some [lit "A"], lit "O"⟩)]
        [lit "K2", lit "Y"]).2 (lit "K2")).getD [])
        zeroHabit).attendees = some l)
    ∧ (∀ i, i < 5 →
        ∃ l, (unmarshalHabit ((getState (initLedger
          [(lit "K", marshalHabit ⟨lit "N", lit "T", some [lit "A"], lit "O"⟩)]).2
          (habitKey i)).getD []) zeroHabit).attendees = some l)
    ∧ (unmarshalHabit ((getState (changeHabitOwner
        [(lit "K", marshalHabit ⟨lit "N", lit "T", some [lit "A"], lit "O"⟩)]
        [lit "K", lit "X"]).2 (lit "K")).getD [])
        zeroHabit).attendees = some [lit "A"] :=
  c8_attendees_not_null
    [(lit "K", marshalHabit ⟨lit "N", lit "T", some [lit "A"], lit "O"⟩)]
    (lit "K2") (lit "K") (lit "n") (lit "t") (lit "a") (lit "o") (lit "Y") (lit "X")
    ⟨lit "N", lit "T", some [lit "A"], lit "O"⟩ [lit "A"] (by decide) rfl
